import Mathlib

set_option maxHeartbeats 1000000

/-!
Verification of the document-ingestion, store-initialization and
turn-coordination behaviour of the ag2-project-demo-pdf repository.

The Python sources are shallowly embedded: pure control flow becomes Lean
functions, Python exceptions become an explicit error type threaded through
`Except`, and the external PDF-partitioning library is a deterministic
oracle mapping a strategy name to either an element list or an error
message.  File-system effects are modelled as the content of the one file a
claim talks about (an `Option Json` value: `none` means the file is absent).
-/

namespace AgDemo

/-- Python exception values raised by this code base: the exception class,
its message, and (for exceptions raised with a `from` clause) the message of
the underlying cause. -/
inductive PyErr where
  | fileNotFound (msg : String)
  | runtimeError (msg : String) (cause : Option String)
  | valueError (msg : String)
  | nameError (msg : String)
deriving DecidableEq

/-- The Python class of an exception, forgetting message and cause. -/
inductive PyErrKind where
  | fileNotFoundK
  | runtimeErrorK
  | valueErrorK
  | nameErrorK
deriving DecidableEq

/-- Map an exception to its Python class. -/
def PyErr.kind : PyErr → PyErrKind
  | .fileNotFound _ => .fileNotFoundK
  | .runtimeError _ _ => .runtimeErrorK
  | .valueError _ => .valueErrorK
  | .nameError _ => .nameErrorK

/-- Message of an exception, Python `str(e)`. -/
def PyErr.message : PyErr → String
  | .fileNotFound m => m
  | .runtimeError m _ => m
  | .valueError m => m
  | .nameError m => m

/-- JSON values; extracted PDF elements and the persisted parsed file are
values of this type. -/
inductive Json where
  | null
  | bool (b : Bool)
  | num (n : Int)
  | str (s : String)
  | arr (elems : List Json)
  | obj (fields : List (String × Json))

/-- Facts `parse_pdf` queries about the input path: whether
`os.path.isfile` holds and the `os.path.getsize` result. -/
structure InputInfo where
  isFile : Bool
  size : Nat
deriving DecidableEq

/-- src/src/utils.py line 68: the ordered strategy list
`[strategy, "fast", "ocr_only", "auto"]`. -/
def strategies_to_try (strategy : String) : List String :=
  [strategy, "fast", "ocr_only", "auto"]

/-- Message of the all-strategies-failed RuntimeError
(src/src/utils.py lines 106-109); Python renders a missing last error
as the string None. -/
def exhaustMsg (lastError : Option String) : String :=
  "Failed to parse PDF after trying 4 strategies. Last error: " ++
    (match lastError with
     | some e => e
     | none => "None")

/-- The exception raised when every strategy failed
(src/src/utils.py line 111, `raise RuntimeError(...) from last_error`). -/
def exhaustErr (lastError : Option String) : PyErr :=
  .runtimeError (exhaustMsg lastError) lastError

/-- src/src/utils.py lines 71-103: the retry loop of `parse_pdf`.  The
oracle is the external `partition_pdf` call, deterministic in the strategy
name.  `lastStrat` is `strategies_to_try[-1]`, the value the loop compares
the current strategy against before deciding whether to continue.  Returns
the number of `partition_pdf` invocations together with the outcome. -/
def strategyLoop (oracle : String → Except String (List Json)) (lastStrat : String) :
    List String → Option String → Nat → Nat × Except PyErr (List Json)
  | [], lastError, n => (n, .error (exhaustErr lastError))
  | s :: rest, _, n =>
    match oracle s with
    | .ok elems => (n + 1, .ok elems)
    | .error e =>
      if s = lastStrat then (n + 1, .error (exhaustErr (some e)))
      else strategyLoop oracle lastStrat rest (some e) (n + 1)

/-- src/src/utils.py lines 26-111: `parse_pdf`.  Checks the input file
exists and is non-empty, then runs the strategy loop.  The first component
counts extraction attempts (zero means no strategy was ever attempted). -/
def parse_pdf (inp : InputInfo) (file_path : String) (strategy : String)
    (oracle : String → Except String (List Json)) : Nat × Except PyErr (List Json) :=
  if inp.isFile = false then
    (0, .error (.fileNotFound ("PDF file not found: " ++ file_path)))
  else if inp.size = 0 then
    (0, .error (.runtimeError ("PDF file is empty: " ++ file_path) none))
  else
    strategyLoop oracle ((strategies_to_try strategy).getLastD "") (strategies_to_try strategy) none 0

/-- The procedure claim C1 describes, written from the claim text (for
comparison with `parse_pdf`): try the strategies in order, advance to the
next exactly when the current one raises, return the element list of the
first strategy that completes without raising, and if every strategy raises
fail with the exhausted error carrying the last underlying error. -/
def firstSuccess (oracle : String → Except String (List Json)) :
    List String → Option String → Except PyErr (List Json)
  | [], lastError => .error (exhaustErr lastError)
  | s :: rest, _ =>
    match oracle s with
    | .ok elems => .ok elems
    | .error e => firstSuccess oracle rest (some e)

/-- Claim C1 as stated: on every existing, non-empty input, `parse_pdf`
realizes `firstSuccess` over the fixed strategy list. -/
def claimC1 : Prop :=
  ∀ (inp : InputInfo) (fp st : String) (oracle : String → Except String (List Json)),
    inp.isFile = true → inp.size ≠ 0 →
    (parse_pdf inp fp st oracle).2 = firstSuccess oracle (strategies_to_try st) none

/-- Claim C2 as stated: on every existing, non-empty input, `parse_pdf`
either returns a non-empty element list or fails with the exhausted error. -/
def claimC2 : Prop :=
  ∀ (inp : InputInfo) (fp st : String) (oracle : String → Except String (List Json)),
    inp.isFile = true → inp.size ≠ 0 →
    match (parse_pdf inp fp st oracle).2 with
    | .ok l => l ≠ []
    | .error e => ∃ le, e = exhaustErr le

/-- Claim C3 as stated: a missing input fails with FileNotFoundError and an
empty input fails with an error whose Python class differs from the class
of the all-strategies-failed error; in both cases no strategy is attempted. -/
def claimC3 : Prop :=
  (∀ (inp : InputInfo) (fp st : String) (oracle : String → Except String (List Json)),
    inp.isFile = false →
    parse_pdf inp fp st oracle = (0, .error (.fileNotFound ("PDF file not found: " ++ fp))))
  ∧ (∀ (inp : InputInfo) (fp st : String) (oracle : String → Except String (List Json)),
    inp.isFile = true → inp.size = 0 →
    ∃ e, parse_pdf inp fp st oracle = (0, .error e) ∧
      ∀ le, e.kind ≠ (exhaustErr le).kind)

/-- Auxiliary: the retry loop agrees with the first-success procedure as
long as no non-final entry of the strategy list equals the value the loop
compares against before breaking. -/
theorem strategyLoop_eq_firstSuccess (oracle : String → Except String (List Json))
    (lastStrat : String) :
    ∀ (strats : List String) (le : Option String) (n : Nat),
      (∀ s ∈ strats.dropLast, s ≠ lastStrat) →
      (strategyLoop oracle lastStrat strats le n).2 = firstSuccess oracle strats le := by
  intro strats
  induction strats with
  | nil => intro le n _; rfl
  | cons s rest ih =>
    intro le n hside
    cases h1 : oracle s with
    | ok l => simp [strategyLoop, firstSuccess, h1]
    | error e =>
      by_cases h2 : s = lastStrat
      · cases rest with
        | nil =>
          subst h2
          simp [strategyLoop, firstSuccess, h1]
        | cons r rest2 =>
          exact absurd h2 (hside s (by simp [List.dropLast]))
      · have hrest : ∀ x ∈ rest.dropLast, x ≠ lastStrat := by
          intro x hx
          apply hside
          cases rest with
          | nil => simp at hx
          | cons r rest2 =>
            simp [List.dropLast] at hx ⊢
            tauto
        simp only [strategyLoop, firstSuccess, h1, h2, if_false, ite_false]
        exact ih (some e) (n + 1) hrest

/-- Auxiliary: on an existing, non-empty input, `parse_pdf` is exactly the
retry loop over the fixed strategy list. -/
theorem parse_pdf_valid (inp : InputInfo) (fp st : String)
    (oracle : String → Except String (List Json))
    (hf : inp.isFile = true) (hs : inp.size ≠ 0) :
    parse_pdf inp fp st oracle =
      strategyLoop oracle ((strategies_to_try st).getLastD "") (strategies_to_try st) none 0 := by
  simp only [parse_pdf]
  rw [hf]
  simp [hs]

/-- Oracle for the C1 counterexample: the strategy named auto raises and
every other strategy succeeds. -/
def autoFailsOracle : String → Except String (List Json) :=
  fun s => if s = "auto" then .error "partition failed" else .ok []

/-- C1 is false as stated: when the given strategy is the string auto, the
loop compares the failing strategy name against the final list entry, sees
them equal on the very first attempt, and aborts without trying the
remaining strategies, although the second strategy would have succeeded. -/
theorem c1_counterexample : ¬ claimC1 := by
  intro h
  have h2 : (Except.error (exhaustErr (some "partition failed")) : Except PyErr (List Json)) =
      .ok [] :=
    h ⟨true, 1⟩ "doc.pdf" "auto" autoFailsOracle rfl (by decide)
  exact Except.noConfusion h2

/-- C1 amended: for every existing, non-empty source file, `parse_pdf`
attempts the strategies in the fixed order and realizes the claimed
first-success-or-exhausted behaviour whenever the given strategy is not the
string auto; when the given strategy is auto, a failure of the first
attempt aborts immediately with the exhausted error carrying that error. -/
theorem c1_parse_pdf_strategy_fallback :
    (∀ (inp : InputInfo) (fp st : String) (oracle : String → Except String (List Json)),
      inp.isFile = true → inp.size ≠ 0 → st ≠ "auto" →
      (parse_pdf inp fp st oracle).2 = firstSuccess oracle (strategies_to_try st) none)
    ∧ (∀ (inp : InputInfo) (fp : String) (oracle : String → Except String (List Json)) (e : String),
      inp.isFile = true → inp.size ≠ 0 → oracle "auto" = .error e →
      (parse_pdf inp fp "auto" oracle).2 = .error (exhaustErr (some e))) := by
  constructor
  · intro inp fp st oracle hf hs hst
    rw [parse_pdf_valid inp fp st oracle hf hs]
    apply strategyLoop_eq_firstSuccess
    intro x hx
    have hlast : (strategies_to_try st).getLastD "" = "auto" := rfl
    rw [hlast]
    simp [strategies_to_try, List.dropLast] at hx
    rcases hx with rfl | rfl | rfl
    · exact hst
    · decide
    · decide
  · intro inp fp oracle e hf hs he
    rw [parse_pdf_valid inp fp "auto" oracle hf hs]
    have hlast : (strategies_to_try "auto").getLastD "" = "auto" := rfl
    rw [hlast]
    simp [strategies_to_try, strategyLoop, he]

/-- Witness for the amended C1 at a concrete input. -/
theorem c1_witness :
    (parse_pdf ⟨true, 1⟩ "doc.pdf" "hi_res" (fun _ => .ok [])).2 =
      firstSuccess (fun _ => .ok []) (strategies_to_try "hi_res") none :=
  c1_parse_pdf_strategy_fallback.1 ⟨true, 1⟩ "doc.pdf" "hi_res" (fun _ => .ok [])
    rfl (by decide) (by decide)

/-- C2 is false as stated: a strategy can succeed with an empty element
list, and `parse_pdf` returns that empty list unchanged because the code
performs no non-emptiness check on the extraction result. -/
theorem c2_counterexample : ¬ claimC2 := by
  intro h
  have h2 : ([] : List Json) ≠ [] :=
    h ⟨true, 1⟩ "doc.pdf" "hi_res" (fun _ => .ok []) rfl (by decide)
  exact h2 rfl

/-- Auxiliary: every outcome of the retry loop is either a success or the
exhausted error, carrying a concrete last error whenever one exists. -/
theorem strategyLoop_shape (oracle : String → Except String (List Json)) (lastStrat : String) :
    ∀ (strats : List String) (le : Option String) (n : Nat),
      (strats ≠ [] ∨ ∃ s, le = some s) →
      (∃ m l, strategyLoop oracle lastStrat strats le n = (m, .ok l)) ∨
      (∃ m e, strategyLoop oracle lastStrat strats le n = (m, .error (exhaustErr (some e)))) := by
  intro strats
  induction strats with
  | nil =>
    intro le n h
    rcases h with h | ⟨s, rfl⟩
    · exact absurd rfl h
    · exact Or.inr ⟨n, s, rfl⟩
  | cons s rest ih =>
    intro le n _
    cases h1 : oracle s with
    | ok l => exact Or.inl ⟨n + 1, l, by simp [strategyLoop, h1]⟩
    | error e =>
      by_cases h2 : s = lastStrat
      · subst h2
        exact Or.inr ⟨n + 1, e, by simp [strategyLoop, h1]⟩
      · have := ih (some e) (n + 1) (Or.inr ⟨e, rfl⟩)
        simpa [strategyLoop, h1, h2] using this

/-- C2 amended: on every existing, non-empty input, `parse_pdf` either
returns the element list of the first successful strategy, which may be
empty, or fails with the exhausted RuntimeError carrying the last
underlying error; no other outcome is possible. -/
theorem c2_parse_pdf_outcomes :
    ∀ (inp : InputInfo) (fp st : String) (oracle : String → Except String (List Json)),
      inp.isFile = true → inp.size ≠ 0 →
      (∃ l, (parse_pdf inp fp st oracle).2 = .ok l) ∨
      (∃ e, (parse_pdf inp fp st oracle).2 = .error (exhaustErr (some e))) := by
  intro inp fp st oracle hf hs
  rw [parse_pdf_valid inp fp st oracle hf hs]
  rcases strategyLoop_shape oracle ((strategies_to_try st).getLastD "")
      (strategies_to_try st) none 0 (Or.inl (by simp [strategies_to_try])) with
    ⟨m, l, hml⟩ | ⟨m, e, hme⟩
  · exact Or.inl ⟨l, by rw [hml]⟩
  · exact Or.inr ⟨e, by rw [hme]⟩

/-- Witness for the amended C2 at a concrete input. -/
theorem c2_witness :
    (∃ l, (parse_pdf ⟨true, 1⟩ "doc.pdf" "hi_res" (fun _ => .ok [Json.null])).2 = .ok l) ∨
    (∃ e, (parse_pdf ⟨true, 1⟩ "doc.pdf" "hi_res" (fun _ => .ok [Json.null])).2 =
      .error (exhaustErr (some e))) :=
  c2_parse_pdf_outcomes ⟨true, 1⟩ "doc.pdf" "hi_res" (fun _ => .ok [Json.null]) rfl (by decide)

/-- C3 is false as stated: the empty-file failure is a RuntimeError, the
same Python exception class as the all-strategies-failed RuntimeError, so
no class distinction exists. -/
theorem c3_counterexample : ¬ claimC3 := by
  intro h
  obtain ⟨e, he, hk⟩ := h.2 ⟨true, 0⟩ "doc.pdf" "hi_res" (fun _ => .ok []) rfl rfl
  have h4 : (Except.error (PyErr.runtimeError ("PDF file is empty: " ++ "doc.pdf") none) :
      Except PyErr (List Json)) = .error e := congrArg Prod.snd he
  have h5 : PyErr.runtimeError ("PDF file is empty: " ++ "doc.pdf") none = e :=
    Except.error.inj h4
  exact hk none (by rw [← h5]; rfl)

/-- Auxiliary: the empty-file message never equals an exhausted-error
message, because the former starts with the letter P and the latter with
the letter F. -/
theorem emptyMsg_ne_exhaustMsg (a : String) (le : Option String) :
    ("PDF file is empty: " ++ a) ≠ exhaustMsg le := by
  intro h
  have hl : ("PDF file is empty: " ++ a).data.head? = some 'P' := rfl
  have hr : (exhaustMsg le).data.head? = some 'F' := by cases le <;> rfl
  rw [h, hr] at hl
  exact absurd (Option.some.inj hl) (by decide)

/-- C3 amended: a missing path fails with FileNotFoundError and an empty
file fails with a RuntimeError whose message differs from every
exhausted-error message, both without attempting any extraction strategy;
but the empty-file error has the same Python class, RuntimeError, as the
exhausted error, so the two are distinguished only by message. -/
theorem c3_parse_pdf_precondition_errors :
    (∀ (inp : InputInfo) (fp st : String) (oracle : String → Except String (List Json)),
      inp.isFile = false →
      parse_pdf inp fp st oracle = (0, .error (.fileNotFound ("PDF file not found: " ++ fp))))
    ∧ (∀ (inp : InputInfo) (fp st : String) (oracle : String → Except String (List Json)),
      inp.isFile = true → inp.size = 0 →
      parse_pdf inp fp st oracle =
        (0, .error (.runtimeError ("PDF file is empty: " ++ fp) none)))
    ∧ (∀ (fp : String) (le : Option String), ("PDF file is empty: " ++ fp) ≠ exhaustMsg le)
    ∧ (∀ (fp : String) (le : Option String),
      (PyErr.runtimeError ("PDF file is empty: " ++ fp) none).kind = (exhaustErr le).kind) := by
  refine ⟨?_, ?_, ?_, ?_⟩
  · intro inp fp st oracle hf
    simp [parse_pdf, hf]
  · intro inp fp st oracle hf hs
    simp [parse_pdf, hf, hs]
  · exact emptyMsg_ne_exhaustMsg
  · intro fp le
    rfl

/-- Witness for the amended C3 at concrete inputs. -/
theorem c3_witness :
    parse_pdf ⟨false, 0⟩ "gone.pdf" "hi_res" (fun _ => .ok []) =
      (0, .error (.fileNotFound ("PDF file not found: " ++ "gone.pdf"))) ∧
    parse_pdf ⟨true, 0⟩ "zero.pdf" "hi_res" (fun _ => .ok []) =
      (0, .error (.runtimeError ("PDF file is empty: " ++ "zero.pdf") none)) :=
  ⟨c3_parse_pdf_precondition_errors.1 ⟨false, 0⟩ "gone.pdf" "hi_res" (fun _ => .ok []) rfl,
   c3_parse_pdf_precondition_errors.2.1 ⟨true, 0⟩ "zero.pdf" "hi_res" (fun _ => .ok []) rfl rfl⟩

/-- Python dict lookup on the field list of a JSON object; a later binding
for the same key shadows an earlier one, as in a dict built by json.load. -/
def dictGet : List (String × Json) → String → Option Json
  | [], _ => none
  | (k2, v) :: rest, k =>
    match dictGet rest k with
    | some w => some w
    | none => if k2 = k then some v else none

/-- src/src/neo4j_client.py lines 144-157: transform one raw entry.  A
non-mapping entry yields none (the loop skips it); a mapping becomes a
record with the text field (defaulting to the empty string), a fixed
labels array, the element_id field (defaulting to null) and the original
metadata field (defaulting to the empty mapping) nested under
original_metadata. -/
def transformEntry (e : Json) : Option Json :=
  match e with
  | .obj fields =>
    some (.obj [
      ("text", (dictGet fields "text").getD (.str "")),
      ("metadata", .obj [
        ("labels", .arr [.str "Document"]),
        ("element_id", (dictGet fields "element_id").getD .null),
        ("original_metadata", (dictGet fields "metadata").getD (.obj []))])])
  | _ => none

/-- src/src/neo4j_client.py lines 143-157: the transformation loop. -/
def transformed_entries (doc : List Json) : List Json :=
  doc.filterMap transformEntry

/-- Message of the ValueError raised for an empty or non-array document
(src/src/neo4j_client.py line 137). -/
def emptyDocMsg (p : String) : String :=
  "Document " ++ p ++ " is empty or not a valid JSON array"

/-- Message of the ValueError raised when no entry survives the
transformation (src/src/neo4j_client.py line 160). -/
def noValidMsg (p : String) : String :=
  "No valid entries could be transformed in document " ++ p

/-- src/src/neo4j_client.py lines 183-185: the generic handler wraps any
inner exception into a RuntimeError raised from it. -/
def wrapInitErr (m : String) : PyErr :=
  .runtimeError ("Neo4j database initialization error: " ++ m) (some m)

/-- src/src/neo4j_client.py lines 129-187: the document-loading part of
`init_query_engine`.  The argument is the parsed content of the file at
json_path (none when the file is missing).  On success the result is the
new content written back to the same path together with the record list
handed to the engine; the external engine.init_db call itself is outside
the model. -/
def init_query_engine_data (p : String) (content : Option Json) :
    Except PyErr (Json × List Json) :=
  match content with
  | none => .error (.fileNotFound ("Document not found: " ++ p))
  | some (.arr (e :: es)) =>
    let t := transformed_entries (e :: es)
    if t.isEmpty then .error (wrapInitErr (noValidMsg p))
    else .ok (.arr t, t)
  | some _ => .error (wrapInitErr (emptyDocMsg p))

/-- Field access on a JSON object value. -/
def getField (r : Json) (k : String) : Option Json :=
  match r with
  | .obj fs => dictGet fs k
  | _ => none

/-- Access a field of the metadata mapping of a record. -/
def metaField (r : Json) (k : String) : Option Json :=
  (getField r "metadata").bind (fun m => getField m k)

/-- Whether a JSON value is a mapping. -/
def isObjB : Json → Bool
  | .obj _ => true
  | _ => false

/-- Whether an entry already carries a label set inside its metadata
mapping. -/
def entryHasLabelSet (e : Json) : Bool :=
  match getField e "metadata" with
  | some (.obj mfields) => (dictGet mfields "labels").isSome
  | _ => false

/-- Claim C4 as stated: non-mappings are dropped, surviving entries get
text (defaulted), the default label set, element_id-or-null, and the
original metadata nested under original_metadata, the wrap happening only
if the entry has no label set; zero survivors fail initialization. -/
def claimC4 : Prop :=
  (∀ e : Json, isObjB e = false → transformEntry e = none)
  ∧ (∀ e r : Json, transformEntry e = some r →
      getField r "text" = some ((getField e "text").getD (.str ""))
      ∧ metaField r "labels" = some (.arr [.str "Document"])
      ∧ metaField r "element_id" = some ((getField e "element_id").getD .null)
      ∧ (metaField r "original_metadata" = some ((getField e "metadata").getD (.obj [])) →
          entryHasLabelSet e = false))
  ∧ (∀ (p : String) (entries : List Json), entries ≠ [] →
      transformed_entries entries = [] →
      init_query_engine_data p (some (.arr entries)) = .error (wrapInitErr (noValidMsg p)))

/-- Entry used by the C4 counterexample: its metadata already carries a
label set. -/
def c4entry : Json :=
  .obj [("text", .str "t"), ("metadata", .obj [("labels", .arr [.str "X"])])]

/-- C4 is false as stated: the transformation wraps the original metadata
under original_metadata unconditionally, even for an entry whose metadata
already contains a labels array. -/
theorem c4_counterexample : ¬ claimC4 := by
  intro h
  have h2 := (h.2.1 c4entry
      (Json.obj [("text", Json.str "t"),
        ("metadata", Json.obj [("labels", Json.arr [Json.str "Document"]),
          ("element_id", Json.null),
          ("original_metadata", Json.obj [("labels", Json.arr [Json.str "X"])])])])
      rfl).2.2.2 rfl
  exact absurd h2 (by decide)

/-- C4 amended: non-mapping entries are dropped silently; every mapping
entry is transformed, unconditionally, into a record with the entry text
(or the empty string), the fixed label set Document, the element_id field
(or null) and the whole original metadata mapping nested under
original_metadata, even when that metadata already contains a labels
array; and when zero entries survive, initialization fails with the
wrapped no-valid-entries error. -/
theorem c4_record_transformation :
    (∀ e : Json, isObjB e = false → transformEntry e = none)
    ∧ (∀ e r : Json, transformEntry e = some r →
        getField r "text" = some ((getField e "text").getD (.str ""))
        ∧ metaField r "labels" = some (.arr [.str "Document"])
        ∧ metaField r "element_id" = some ((getField e "element_id").getD .null)
        ∧ metaField r "original_metadata" = some ((getField e "metadata").getD (.obj [])))
    ∧ (∀ (p : String) (entries : List Json), entries ≠ [] →
        transformed_entries entries = [] →
        init_query_engine_data p (some (.arr entries)) =
          .error (wrapInitErr (noValidMsg p))) := by
  refine ⟨?_, ?_, ?_⟩
  · intro e he
    cases e <;> simp_all [transformEntry, isObjB]
  · intro e r h
    cases e with
    | obj fields =>
      have h2 : r = Json.obj [
          ("text", (dictGet fields "text").getD (.str "")),
          ("metadata", .obj [
            ("labels", .arr [.str "Document"]),
            ("element_id", (dictGet fields "element_id").getD .null),
            ("original_metadata", (dictGet fields "metadata").getD (.obj []))])] :=
        (Option.some.inj h).symm
      subst h2
      exact ⟨rfl, rfl, rfl, rfl⟩
    | null => exact Option.noConfusion h
    | bool b => exact Option.noConfusion h
    | num n => exact Option.noConfusion h
    | str s => exact Option.noConfusion h
    | arr l => exact Option.noConfusion h
  · intro p entries hne hemp
    cases entries with
    | nil => exact absurd rfl hne
    | cons e es =>
      simp [init_query_engine_data, hemp]

/-- Witness for the amended C4 at concrete inputs. -/
theorem c4_witness :
    transformEntry (Json.str "x") = none ∧
    init_query_engine_data "out.json" (some (.arr [Json.null])) =
      .error (wrapInitErr (noValidMsg "out.json")) :=
  ⟨c4_record_transformation.1 (Json.str "x") rfl,
   c4_record_transformation.2.2 "out.json" [Json.null] (by simp) rfl⟩

/-- Re-transforming a record applies the wrap again: the record has no
top-level element_id key, so the second wrap stores null there, and the
whole first-run metadata mapping lands under original_metadata. -/
def secondWrap (r : Json) : Json :=
  (transformEntry r).getD r

/-- Auxiliary: transforming a two-field record of the produced shape. -/
theorem transformEntry_pair (t m : Json) :
    transformEntry (Json.obj [("text", t), ("metadata", m)]) =
      some (Json.obj [("text", t), ("metadata", Json.obj
        [("labels", Json.arr [Json.str "Document"]),
         ("element_id", Json.null),
         ("original_metadata", m)])]) := rfl

/-- Auxiliary: every produced record is a two-field mapping of text and
metadata. -/
theorem mem_transformed_shape (l : List Json) (r : Json)
    (h : r ∈ transformed_entries l) :
    ∃ t m, r = Json.obj [("text", t), ("metadata", m)] := by
  rw [transformed_entries, List.mem_filterMap] at h
  obtain ⟨a, _, ha⟩ := h
  cases a with
  | obj fields => exact ⟨_, _, (Option.some.inj ha).symm⟩
  | null => exact Option.noConfusion ha
  | bool b => exact Option.noConfusion ha
  | num n => exact Option.noConfusion ha
  | str s => exact Option.noConfusion ha
  | arr es => exact Option.noConfusion ha

/-- Auxiliary: when every entry survives, the transformation is a map. -/
theorem transformed_eq_map_secondWrap :
    ∀ l : List Json, (∀ r ∈ l, (transformEntry r).isSome) →
      transformed_entries l = l.map secondWrap := by
  intro l
  induction l with
  | nil => intro _; rfl
  | cons a l2 ih =>
    intro h
    obtain ⟨v, hv⟩ := Option.isSome_iff_exists.mp (h a (by simp))
    have ht : transformed_entries (a :: l2) = v :: transformed_entries l2 := by
      simp [transformed_entries, List.filterMap_cons, hv]
    have hrest : transformed_entries l2 = l2.map secondWrap :=
      ih (fun r hr => h r (List.mem_cons_of_mem a hr))
    rw [ht, hrest, List.map_cons]
    have hsw : secondWrap a = v := by simp [secondWrap, hv]
    rw [hsw]

/-- Auxiliary: what a successful store initialization implies. -/
theorem init_ok_inv (p : String) (entries : List Json) (res : Json × List Json)
    (h : init_query_engine_data p (some (.arr entries)) = .ok res) :
    res.1 = .arr res.2 ∧ res.2 = transformed_entries entries ∧ res.2 ≠ [] := by
  cases entries with
  | nil => exact Except.noConfusion h
  | cons e es =>
    by_cases hemp : (transformed_entries (e :: es)).isEmpty
    · rw [show init_query_engine_data p (some (.arr (e :: es))) =
          .error (wrapInitErr (noValidMsg p)) from by
            simp [init_query_engine_data, hemp]] at h
      exact Except.noConfusion h
    · rw [show init_query_engine_data p (some (.arr (e :: es))) =
          .ok (.arr (transformed_entries (e :: es)), transformed_entries (e :: es)) from by
            simp [init_query_engine_data, hemp]] at h
      obtain rfl := Except.ok.inj h
      refine ⟨rfl, rfl, ?_⟩
      simpa using hemp

/-- C10: a successful store initialization writes back, at the same path,
exactly the JSON array of the records it loads, and the transformation is
not idempotent: initializing again over the rewritten file succeeds and
re-wraps every record, so each second-run record carries a null element_id
and nests the whole first-run metadata mapping under original_metadata. -/
theorem c10_init_rewrite_not_idempotent :
    (∀ (p : String) (entries : List Json) (res : Json × List Json),
      init_query_engine_data p (some (.arr entries)) = .ok res →
      res.1 = .arr res.2 ∧ res.2 = transformed_entries entries)
    ∧ (∀ (p : String) (entries t1 : List Json),
      init_query_engine_data p (some (.arr entries)) = .ok (.arr t1, t1) →
      init_query_engine_data p (some (.arr t1)) =
        .ok (.arr (t1.map secondWrap), t1.map secondWrap)
      ∧ ∀ r ∈ t1, ∃ t m, r = Json.obj [("text", t), ("metadata", m)] ∧
          secondWrap r = Json.obj [("text", t), ("metadata", Json.obj
            [("labels", Json.arr [Json.str "Document"]),
             ("element_id", Json.null),
             ("original_metadata", m)])]) := by
  constructor
  · intro p entries res h
    obtain ⟨h1, h2, _⟩ := init_ok_inv p entries res h
    exact ⟨h1, h2⟩
  · intro p entries t1 h
    obtain ⟨_, ht, hne⟩ := init_ok_inv p entries (.arr t1, t1) h
    have hshape : ∀ r ∈ t1, ∃ t m, r = Json.obj [("text", t), ("metadata", m)] := by
      intro r hr
      exact mem_transformed_shape entries r (ht ▸ hr)
    have hsome : ∀ r ∈ t1, (transformEntry r).isSome := by
      intro r hr
      obtain ⟨t, m, rfl⟩ := hshape r hr
      rw [transformEntry_pair]
      rfl
    have hmap : transformed_entries t1 = t1.map secondWrap :=
      transformed_eq_map_secondWrap t1 hsome
    constructor
    · cases t1 with
      | nil => exact absurd rfl hne
      | cons r1 rest =>
        have hemp : (transformed_entries (r1 :: rest)).isEmpty = false := by
          rw [hmap]
          simp
        simp [init_query_engine_data, hemp, hmap]
    · intro r hr
      obtain ⟨t, m, rfl⟩ := hshape r hr
      exact ⟨t, m, rfl, by simp [secondWrap, transformEntry_pair]⟩

/-- The record produced by a first initialization run over the single raw
entry with text hi, used by the C10 witness. -/
def c10rec : Json :=
  Json.obj [("text", Json.str "hi"), ("metadata", Json.obj
    [("labels", Json.arr [Json.str "Document"]),
     ("element_id", Json.null),
     ("original_metadata", Json.obj [])])]

/-- Witness for C10 at a concrete input. -/
theorem c10_witness :
    init_query_engine_data "o.json" (some (.arr [c10rec])) =
      .ok (.arr ([c10rec].map secondWrap), [c10rec].map secondWrap)
    ∧ ∀ r ∈ [c10rec], ∃ t m, r = Json.obj [("text", t), ("metadata", m)] ∧
        secondWrap r = Json.obj [("text", t), ("metadata", Json.obj
          [("labels", Json.arr [Json.str "Document"]),
           ("element_id", Json.null),
           ("original_metadata", m)])] :=
  c10_init_rewrite_not_idempotent.2 "o.json" [Json.obj [("text", Json.str "hi")]] [c10rec] rfl

/-- Python prefix test on character lists. -/
def prefixOf : List Char → List Char → Bool
  | [], _ => true
  | _ :: _, [] => false
  | a :: as, b :: bs => a == b && prefixOf as bs

/-- Python substring containment, the `in` operator, on character lists. -/
def containsSub (needle : List Char) : List Char → Bool
  | [] => needle.isEmpty
  | c :: rest => prefixOf needle (c :: rest) || containsSub needle rest

/-- Python substring containment on strings. -/
def strContains (sub s : String) : Bool :=
  containsSub sub.data s.data

/-- Python str.lower. -/
def lowerStr (s : String) : String :=
  String.mk (s.data.map Char.toLower)

/-- src/app.py line 130: the check for a missing-Tesseract error message. -/
def tesseract_in (msg : String) : Bool :=
  strContains "tesseract is not installed" (lowerStr msg)

/-- Result of a parse_document call: the content at output_json after the
call, the number of extraction attempts made, and the returned flag (or
the re-raised exception when skip_if_error is false). -/
structure ParseDocResult where
  output : Option Json
  attempts : Nat
  result : Except PyErr Bool

/-- src/app.py lines 90-148: parse_document.  out0 is the content of the
file at output_json before the call (none when the file is absent); the
input PDF is described by inp and the external extractor by the oracle.
Directory creation has no effect on the modelled file content. -/
def parse_document (inp : InputInfo) (pdf_path : String) (out0 : Option Json)
    (force_parse skip_if_error : Bool)
    (oracle : String → Except String (List Json)) : ParseDocResult :=
  if force_parse = false ∧ out0.isSome then ⟨out0, 0, .ok true⟩
  else
    match parse_pdf inp pdf_path "hi_res" oracle with
    | (n, .ok elems) => ⟨some (.arr elems), n, .ok true⟩
    | (n, .error (.fileNotFound m)) =>
      ⟨out0, n, if skip_if_error then .ok false else .error (.fileNotFound m)⟩
    | (n, .error e) =>
      if tesseract_in e.message then
        ⟨if out0.isNone then some (.arr []) else out0, n,
          if skip_if_error then .ok false else .error e⟩
      else
        ⟨out0, n, if skip_if_error then .ok false else .error e⟩

/-- C5: when the output already exists and re-ingestion is not forced, the
pipeline is a no-op returning success with zero extraction attempts; and
running parse_document twice with no force flag leaves the output content
after the second call identical to the content after the first. -/
theorem c5_parse_document_noop_idempotent :
    (∀ (inp : InputInfo) (pdf : String) (out0 : Option Json) (skipE : Bool)
       (oracle : String → Except String (List Json)),
      out0.isSome = true →
      parse_document inp pdf out0 false skipE oracle = ⟨out0, 0, .ok true⟩)
    ∧ (∀ (inp : InputInfo) (pdf : String) (out0 : Option Json)
       (oracle : String → Except String (List Json)),
      (parse_document inp pdf
        (parse_document inp pdf out0 false true oracle).output false true oracle).output =
      (parse_document inp pdf out0 false true oracle).output) := by
  constructor
  · intro inp pdf out0 skipE oracle h
    simp [parse_document, h]
  · intro inp pdf out0 oracle
    cases out0 with
    | some v =>
      have h1 : parse_document inp pdf (some v) false true oracle = ⟨some v, 0, .ok true⟩ := by
        simp [parse_document]
      rw [h1, h1]
    | none =>
      rcases hp : parse_pdf inp pdf "hi_res" oracle with ⟨n, res⟩
      cases res with
      | ok elems =>
        have h1 : parse_document inp pdf none false true oracle =
            ⟨some (.arr elems), n, .ok true⟩ := by
          simp [parse_document, hp]
        rw [h1]
        simp [parse_document]
      | error e =>
        cases e with
        | fileNotFound m =>
          have h1 : parse_document inp pdf none false true oracle = ⟨none, n, .ok false⟩ := by
            simp [parse_document, hp]
          rw [h1, h1]
        | runtimeError m c =>
          by_cases ht : tesseract_in (PyErr.runtimeError m c).message
          · have h1 : parse_document inp pdf none false true oracle =
                ⟨some (.arr []), n, .ok false⟩ := by
              simp [parse_document, hp, ht]
            rw [h1]
            simp [parse_document]
          · have h1 : parse_document inp pdf none false true oracle = ⟨none, n, .ok false⟩ := by
              simp [parse_document, hp, ht]
            rw [h1, h1]
        | valueError m =>
          by_cases ht : tesseract_in (PyErr.valueError m).message
          · have h1 : parse_document inp pdf none false true oracle =
                ⟨some (.arr []), n, .ok false⟩ := by
              simp [parse_document, hp, ht]
            rw [h1]
            simp [parse_document]
          · have h1 : parse_document inp pdf none false true oracle = ⟨none, n, .ok false⟩ := by
              simp [parse_document, hp, ht]
            rw [h1, h1]
        | nameError m =>
          by_cases ht : tesseract_in (PyErr.nameError m).message
          · have h1 : parse_document inp pdf none false true oracle =
                ⟨some (.arr []), n, .ok false⟩ := by
              simp [parse_document, hp, ht]
            rw [h1]
            simp [parse_document]
          · have h1 : parse_document inp pdf none false true oracle = ⟨none, n, .ok false⟩ := by
              simp [parse_document, hp, ht]
            rw [h1, h1]

/-- Witness for C5 at a concrete input. -/
theorem c5_witness :
    parse_document ⟨true, 1⟩ "doc.pdf" (some (.arr [])) false true (fun _ => .ok []) =
      ⟨some (.arr []), 0, .ok true⟩ :=
  c5_parse_document_noop_idempotent.1 ⟨true, 1⟩ "doc.pdf" (some (.arr [])) true
    (fun _ => .ok []) rfl

/-- The command-line arguments of src/app.py (lines 228-275) that the main
control flow reads. -/
structure Args where
  pdf_path : String
  output_json : String
  image_dir : String
  parse_pdf : Bool
  skip_pdf_parsing : Bool
  create_empty_json : Bool

/-- Observable outcome of running main: the process exit status, the lines
printed to stdout, and the content at output_json afterwards. -/
structure MainResult where
  exitCode : Nat
  printed : List String
  output : Option Json

/-- src/app.py line 311. -/
def diagnostic1 : String :=
  "Error: PDF parsing failed. Please install Tesseract OCR or use --create-empty-json for testing."

/-- src/app.py line 312. -/
def diagnostic2 : String :=
  "You can install Tesseract OCR with: sudo apt-get install tesseract-ocr"

/-- src/app.py line 325. -/
def noDataMsg (p : String) : String :=
  "Error: No parsed data found at " ++ p ++ ". Use --create-empty-json for testing."

/-- src/app.py lines 322-346 after the ingestion stage: check that parsed
data exists, then run the engine, agent and chat stage (collapsed into the
rest oracle); any exception is caught at line 344, printed, and main
returns normally, so the process exits 0. -/
def main_tail (output_json : String) (out : Option Json)
    (rest : Except String Unit) : MainResult :=
  if out.isNone then ⟨0, [noDataMsg output_json], out⟩
  else
    match rest with
    | .ok _ => ⟨0, [], out⟩
    | .error m => ⟨0, ["Error: " ++ m], out⟩

/-- src/app.py lines 278-346: main.  config models load_config (an
exception there is caught by the same handler).  Every branch returns
normally, and the module calls sys.exit nowhere, so the exit status is 0
by construction on every path; note the if __name__ guard at lines 349-350
is itself commented out. -/
def main (args : Args) (inp : InputInfo) (out0 : Option Json)
    (oracle : String → Except String (List Json))
    (config : Except String Unit) (rest : Except String Unit) : MainResult :=
  match config with
  | .error m => ⟨0, ["Error: " ++ m], out0⟩
  | .ok _ =>
    let out1 := if args.create_empty_json ∧ out0.isNone then some (.arr []) else out0
    if args.skip_pdf_parsing = false ∧ args.create_empty_json = false then
      let pd := parse_document inp args.pdf_path out1 args.parse_pdf true oracle
      match pd.result with
      | .ok b =>
        if b = false ∧ pd.output.isNone then ⟨0, [diagnostic1, diagnostic2], pd.output⟩
        else main_tail args.output_json pd.output rest
      | .error e => ⟨0, ["Error: " ++ e.message], pd.output⟩
    else if args.skip_pdf_parsing then
      main_tail args.output_json (if out1.isNone then some (.arr []) else out1) rest
    else
      main_tail args.output_json out1 rest

/-- Claim C8 as stated: success exits 0, and ingestion exhaustion without
prior output and without skipping prints a diagnostic and exits with a
non-zero status. -/
def claimC8 : Prop :=
  (∀ (args : Args) (inp : InputInfo) (out0 : Option Json)
     (oracle : String → Except String (List Json)) (config rest : Except String Unit),
    (main args inp out0 oracle config rest).printed = [] →
    (main args inp out0 oracle config rest).exitCode = 0)
  ∧ (∀ (args : Args) (inp : InputInfo) (oracle : String → Except String (List Json))
     (rest : Except String Unit),
    args.skip_pdf_parsing = false → args.create_empty_json = false →
    (parse_document inp args.pdf_path none args.parse_pdf true oracle).result = .ok false →
    (parse_document inp args.pdf_path none args.parse_pdf true oracle).output = none →
    diagnostic1 ∈ (main args inp none oracle (.ok ()) rest).printed
    ∧ (main args inp none oracle (.ok ()) rest).exitCode ≠ 0)

/-- C8 is false as stated: on ingestion exhaustion main prints the
diagnostic but then returns normally, so the process still exits 0; no
non-zero exit path exists in main. -/
theorem c8_counterexample : ¬ claimC8 := by
  intro h
  have h2 := (h.2 ⟨"doc.pdf", "out.json", "img", false, false, false⟩ ⟨true, 1⟩
      (fun _ => .error "broken") (.ok ()) rfl rfl rfl rfl).2
  exact h2 rfl

/-- Auxiliary: main_tail always reports exit status 0. -/
theorem main_tail_exit (p : String) (o : Option Json) (r : Except String Unit) :
    (main_tail p o r).exitCode = 0 := by
  cases o <;> cases r <;> rfl

/-- C8 amended: main exits with status 0 on every input, success or not,
because every exception is caught and main returns normally; on ingestion
exhaustion with no prior output and no skip flag it prints exactly the
two-line diagnostic before doing so. -/
theorem c8_exit_status :
    (∀ (args : Args) (inp : InputInfo) (out0 : Option Json)
       (oracle : String → Except String (List Json)) (config rest : Except String Unit),
      (main args inp out0 oracle config rest).exitCode = 0)
    ∧ (∀ (args : Args) (inp : InputInfo) (oracle : String → Except String (List Json))
       (rest : Except String Unit),
      args.skip_pdf_parsing = false → args.create_empty_json = false →
      (parse_document inp args.pdf_path none args.parse_pdf true oracle).result = .ok false →
      (parse_document inp args.pdf_path none args.parse_pdf true oracle).output = none →
      (main args inp none oracle (.ok ()) rest).printed = [diagnostic1, diagnostic2]) := by
  constructor
  · intro args inp out0 oracle config rest
    cases config with
    | error m => rfl
    | ok u =>
      simp only [main]
      repeat' split
      all_goals first
        | rfl
        | exact main_tail_exit _ _ _
  · intro args inp oracle rest h1 h2 hr ho
    simp [main, h1, h2, hr, ho]

/-- Witness for the amended C8 at a concrete input. -/
theorem c8_witness :
    (main ⟨"doc.pdf", "out.json", "img", false, false, false⟩ ⟨true, 1⟩ none
      (fun _ => .error "broken") (.ok ()) (.ok ())).printed = [diagnostic1, diagnostic2] :=
  c8_exit_status.2 ⟨"doc.pdf", "out.json", "img", false, false, false⟩ ⟨true, 1⟩
    (fun _ => .error "broken") (.ok ()) rfl rfl rfl rfl

/-- The local names bound in the body of setup_agents before its return
statement, with the display name of the constructed agent (src/app.py
lines 164-186).  The binding of rag_agent at line 173 is commented out in
the source, so no such local exists. -/
def setup_agents_env : List (String × String) :=
  [("user_proxy", "user_proxy"),
   ("graph_rag_capability", "graph_rag_capability"),
   ("general", "general_assistant"),
   ("search", "web_search_agent"),
   ("image2table", "image2table_convertor"),
   ("final_agent", "final_summarizer")]

/-- The local names the return statement of setup_agents evaluates, in
order (src/app.py lines 189-196). -/
def setup_agents_referenced : List String :=
  ["user_proxy", "general", "search", "rag_agent", "image2table", "final_agent"]

/-- Python name resolution: an unbound name raises NameError. -/
def lookupLocal (env : List (String × String)) (n : String) : Except PyErr String :=
  match env.find? (fun kv => kv.1 == n) with
  | some kv => .ok kv.2
  | none => .error (.nameError ("name " ++ n ++ " is not defined"))

/-- src/app.py lines 151-200: setup_agents.  The constructions at lines
166-186 are pure and always succeed; evaluating the returned agent list
resolves each referenced local in order, and the except handler at lines
197-200 re-raises whatever exception occurs. -/
def setup_agents : Except PyErr (String × List String) :=
  (setup_agents_referenced.mapM (lookupLocal setup_agents_env)).map
    (fun l => ("user_proxy", l))

/-- C9: the returned agent list of setup_agents references the rag_agent
participant, which is never constructed in this code path, so every call
of setup_agents fails fast, with the Python name-not-found error, before
any agent list is returned; no agent set with an unregistered participant
ever reaches the group chat. -/
theorem c9_setup_agents_fails_fast :
    setup_agents = .error (.nameError ("name " ++ "rag_agent" ++ " is not defined"))
    ∧ "rag_agent" ∈ setup_agents_referenced
    ∧ setup_agents_env.all (fun kv => kv.1 != "rag_agent") = true
    ∧ ∀ res, setup_agents ≠ .ok res := by
  refine ⟨rfl, by decide, by decide, ?_⟩
  intro res h
  rw [show setup_agents = .error (.nameError ("name " ++ "rag_agent" ++ " is not defined"))
    from rfl] at h
  exact Except.noConfusion h

/-- The content field of a message dict: key absent, value None, or a
string value. -/
inductive ContentField where
  | missing
  | null
  | strVal (s : String)
deriving DecidableEq

/-- src/test.py line 51, the expression `(x.get("content", "") or "")`: a
missing key yields the default empty string, and a falsy value (None or
the empty string) is replaced by the empty string. -/
def contentOrEmpty : ContentField → String
  | .missing => ""
  | .null => ""
  | .strVal s => s

/-- Python str.upper. -/
def upperStr (s : String) : String :=
  String.mk (s.data.map Char.toUpper)

/-- src/test.py lines 47-52: the termination predicate handed to the
GroupChatManager, true when DONE! occurs in the uppercased content. -/
def is_termination_msg (x : ContentField) : Bool :=
  strContains "DONE!" (upperStr (contentOrEmpty x))

/-- Containment of the token DONE! up to case, stated structurally as the
claim reads: some slice of the content uppercases to the token. -/
def CaseInsensitiveDone (s : String) : Prop :=
  ∃ p w q, s.data = p ++ w ++ q ∧ w.map Char.toUpper = "DONE!".data

/-- Auxiliary: correctness of the prefix test. -/
theorem prefixOf_iff : ∀ needle hay : List Char,
    prefixOf needle hay = true ↔ ∃ q, hay = needle ++ q := by
  intro needle
  induction needle with
  | nil =>
    intro hay
    simp [prefixOf]
  | cons a as ih =>
    intro hay
    cases hay with
    | nil => simp [prefixOf]
    | cons b bs =>
      constructor
      · intro h
        rw [show prefixOf (a :: as) (b :: bs) = (a == b && prefixOf as bs) from rfl,
          Bool.and_eq_true, beq_iff_eq] at h
        obtain ⟨rfl, h2⟩ := h
        obtain ⟨q, rfl⟩ := (ih bs).mp h2
        exact ⟨q, rfl⟩
      · rintro ⟨q, hq⟩
        injection hq with h1 h2
        rw [show prefixOf (a :: as) (b :: bs) = (a == b && prefixOf as bs) from rfl,
          Bool.and_eq_true, beq_iff_eq]
        exact ⟨h1.symm, (ih bs).mpr ⟨q, h2⟩⟩

/-- Auxiliary: correctness of the substring test. -/
theorem containsSub_iff : ∀ needle hay : List Char,
    containsSub needle hay = true ↔ ∃ p q, hay = p ++ needle ++ q := by
  intro needle hay
  induction hay with
  | nil =>
    rw [show containsSub needle [] = needle.isEmpty from rfl]
    constructor
    · intro h
      rw [List.isEmpty_iff] at h
      subst h
      exact ⟨[], [], rfl⟩
    · rintro ⟨p, q, h⟩
      rw [eq_comm, List.append_eq_nil, List.append_eq_nil] at h
      rw [h.1.2]
      rfl
  | cons c rest ih =>
    rw [show containsSub needle (c :: rest) =
      (prefixOf needle (c :: rest) || containsSub needle rest) from rfl,
      Bool.or_eq_true, prefixOf_iff, ih]
    constructor
    · rintro (⟨q, hq⟩ | ⟨p, q, rfl⟩)
      · exact ⟨[], q, by simpa using hq⟩
      · exact ⟨c :: p, q, rfl⟩
    · rintro ⟨p, q, hpq⟩
      cases p with
      | nil => exact Or.inl ⟨q, by simpa using hpq⟩
      | cons x p2 =>
        injection hpq with h1 h2
        exact Or.inr ⟨p2, q, h2⟩

/-- Auxiliary: the predicate on a string content is exactly
case-insensitive containment of the token. -/
theorem is_termination_iff (s : String) :
    is_termination_msg (.strVal s) = true ↔ CaseInsensitiveDone s := by
  rw [show is_termination_msg (.strVal s) =
    containsSub ("DONE!".data) (s.data.map Char.toUpper) from rfl, containsSub_iff]
  constructor
  · rintro ⟨p, q, h⟩
    rw [List.map_eq_append_iff] at h
    obtain ⟨l₁, l₂, hsplit, h3, h4⟩ := h
    rw [List.map_eq_append_iff] at h3
    obtain ⟨l₃, w, hsplit2, hp, hw⟩ := h3
    exact ⟨l₃, w, l₂, by rw [hsplit, hsplit2], hw⟩
  · rintro ⟨p, w, q, hs, hw⟩
    exact ⟨p.map Char.toUpper, q.map Char.toUpper, by simp [hs, hw]⟩

/-- Modelled from the spec: one transcript message, a sender identity with
its content (section 3, Transcript; the dispatch loop itself lives in the
external autogen library, not in this repository). -/
structure Msg where
  sender : String
  content : ContentField
deriving DecidableEq

/-- Modelled from the spec: a session of the Turn Coordinator (section 3,
Session): the participant registry in registration order, the transcript,
the current speaker, the round counter with its bound, and the termination
flag. -/
structure Session where
  registry : List String
  transcript : List Msg
  current : String
  rounds : Nat
  maxRounds : Nat
  terminated : Bool
deriving DecidableEq

/-- Modelled from the spec: round-robin speaker selection (section 4.4),
the deterministic cyclic order over registry order skipping the current
speaker; none when no other participant exists. -/
def selectNext (reg : List String) (cur : String) : Option String :=
  ((reg.dropWhile (fun a => a != cur)).drop 1 ++ reg.takeWhile (fun a => a != cur)).head?

/-- Modelled from the spec: one full turn of the Turn Coordinator
(section 4.4).  A terminated session never changes; otherwise the session
terminates when the round bound is reached, when the termination predicate
holds on the latest message, or when no speaker can be selected; else the
selected participant is dispatched, its reply is appended and the round
counter advances. -/
def step (reply : String → List Msg → ContentField) (isTerm : ContentField → Bool)
    (s : Session) : Session :=
  if s.terminated then s
  else if s.maxRounds ≤ s.rounds then { s with terminated := true }
  else if (match s.transcript.getLast? with
           | some m => isTerm m.content
           | none => false) then { s with terminated := true }
  else
    match selectNext s.registry s.current with
    | none => { s with terminated := true }
    | some p =>
      { s with current := p,
               transcript := s.transcript ++ [⟨p, reply p s.transcript⟩],
               rounds := s.rounds + 1 }

/-- Modelled from the spec: iterate the coordinator for a number of
turns. -/
def runSteps (reply : String → List Msg → ContentField) (isTerm : ContentField → Bool) :
    Session → Nat → Session
  | s, 0 => s
  | s, n + 1 => runSteps reply isTerm (step reply isTerm s) n

/-- Modelled from the spec: the selected-speaker sequence of a run. -/
def speakersOf (reply : String → List Msg → ContentField) (isTerm : ContentField → Bool) :
    Session → Nat → List String
  | _, 0 => []
  | s, n + 1 =>
    (step reply isTerm s).current :: speakersOf reply isTerm (step reply isTerm s) n

/-- Auxiliary: a terminated session is a fixed point of the coordinator. -/
theorem step_terminated (reply : String → List Msg → ContentField)
    (isTerm : ContentField → Bool) (s : Session) (h : s.terminated = true) :
    step reply isTerm s = s := by
  simp [step, h]

/-- Auxiliary: a terminated session stays unchanged for any number of
turns. -/
theorem runSteps_terminated (reply : String → List Msg → ContentField)
    (isTerm : ContentField → Bool) :
    ∀ (n : Nat) (s : Session), s.terminated = true → runSteps reply isTerm s n = s := by
  intro n
  induction n with
  | zero => intro s _; rfl
  | succ k ih =>
    intro s h
    show runSteps reply isTerm (step reply isTerm s) k = s
    rw [step_terminated reply isTerm s h]
    exact ih s h

/-- C6: the termination predicate is true exactly when the content
contains the token DONE! case-insensitively, a missing or None content
never matches, and when the predicate holds on the latest message of a
live session the coordinator transitions to Terminated on that turn,
dispatching nothing then or on any later turn. -/
theorem c6_termination_predicate :
    (∀ s : String, is_termination_msg (.strVal s) = true ↔ CaseInsensitiveDone s)
    ∧ is_termination_msg .missing = false
    ∧ is_termination_msg .null = false
    ∧ (∀ (reply : String → List Msg → ContentField) (s : Session) (m : Msg),
        s.terminated = false →
        s.transcript.getLast? = some m →
        is_termination_msg m.content = true →
        step reply is_termination_msg s = { s with terminated := true }
        ∧ ∀ n, runSteps reply is_termination_msg { s with terminated := true } n =
            { s with terminated := true }) := by
  refine ⟨is_termination_iff, rfl, rfl, ?_⟩
  intro reply s m h0 hl hm
  constructor
  · by_cases hmr : s.maxRounds ≤ s.rounds
    · simp [step, h0, hmr]
    · simp [step, h0, hmr, hl, hm]
  · intro n
    exact runSteps_terminated reply is_termination_msg n _ rfl

/-- Witness for C6 at a concrete input. -/
theorem c6_witness :
    (is_termination_msg (.strVal "all done! bye") = true ↔ CaseInsensitiveDone "all done! bye")
    ∧ step (fun _ _ => ContentField.null) is_termination_msg
        ⟨["A", "B"], [⟨"A", .strVal "We are Done! now"⟩], "A", 0, 5, false⟩ =
      ⟨["A", "B"], [⟨"A", .strVal "We are Done! now"⟩], "A", 0, 5, true⟩ :=
  ⟨c6_termination_predicate.1 "all done! bye",
   (c6_termination_predicate.2.2.2 (fun _ _ => ContentField.null)
      ⟨["A", "B"], [⟨"A", .strVal "We are Done! now"⟩], "A", 0, 5, false⟩
      ⟨"A", .strVal "We are Done! now"⟩ rfl rfl (by decide)).1⟩

/-- Auxiliary: taking at most the length of the left part of an append
ignores the right part. -/
theorem take_append_left {α : Type} :
    ∀ (l₁ l₂ : List α) (n : Nat), n ≤ l₁.length → (l₁ ++ l₂).take n = l₁.take n := by
  intro l₁
  induction l₁ with
  | nil =>
    intro l₂ n h
    simp at h
    simp [h]
  | cons a l ih =>
    intro l₂ n h
    cases n with
    | zero => rfl
    | succ k =>
      simp only [List.cons_append, List.take_succ_cons]
      rw [ih l₂ k (by simpa using h)]

/-- Auxiliary: takeWhile not-equal stops exactly at the distinguished
element. -/
theorem takeWhile_neq_append :
    ∀ (xs : List String) (c : String) (ys : List String), c ∉ xs →
      (xs ++ c :: ys).takeWhile (fun a => a != c) = xs := by
  intro xs
  induction xs with
  | nil =>
    intro c ys _
    simp [List.takeWhile_cons]
  | cons x xs2 ih =>
    intro c ys hx
    have hx1 : x ≠ c := fun h => hx (by simp [h])
    have hx2 : c ∉ xs2 := fun h => hx (List.mem_cons_of_mem _ h)
    simp only [List.cons_append, List.takeWhile_cons]
    simp [hx1, ih c ys hx2]

/-- Auxiliary: dropWhile not-equal reaches exactly the distinguished
element. -/
theorem dropWhile_neq_append :
    ∀ (xs : List String) (c : String) (ys : List String), c ∉ xs →
      (xs ++ c :: ys).dropWhile (fun a => a != c) = c :: ys := by
  intro xs
  induction xs with
  | nil =>
    intro c ys _
    simp [List.dropWhile_cons]
  | cons x xs2 ih =>
    intro c ys hx
    have hx1 : x ≠ c := fun h => hx (by simp [h])
    have hx2 : c ∉ xs2 := fun h => hx (List.mem_cons_of_mem _ h)
    simp only [List.cons_append, List.dropWhile_cons]
    simp [hx1, ih c ys hx2]

/-- Auxiliary: round-robin selection rotates the registry past the current
speaker. -/
theorem selectNext_eq (xs ys : List String) (c : String) (hx : c ∉ xs) :
    selectNext (xs ++ c :: ys) c = (ys ++ xs).head? := by
  rw [selectNext, takeWhile_neq_append xs c ys hx, dropWhile_neq_append xs c ys hx]
  rfl

/-- Modelled from the spec: the round-robin speaker stream from a given
current speaker, for comparison with coordinator runs; it ends early only
when no further speaker can be selected. -/
def rrFrom (reg : List String) : String → Nat → List String
  | _, 0 => []
  | c, n + 1 =>
    match selectNext reg c with
    | none => []
    | some p => p :: rrFrom reg p n

/-- Auxiliary: within one cycle, the round-robin stream from the current
speaker is a prefix of rest-of-registry, then the part before the current
speaker, then the current speaker. -/
theorem rrFrom_take :
    ∀ (M : Nat) (xs ys : List String) (c : String),
      (xs ++ c :: ys).Nodup → 1 ≤ xs.length + ys.length →
      M ≤ xs.length + ys.length + 1 →
      rrFrom (xs ++ c :: ys) c M = (ys ++ xs ++ [c]).take M := by
  intro M
  induction M with
  | zero =>
    intro xs ys c _ _ _
    simp [rrFrom]
  | succ M ih =>
    intro xs ys c hnd hge hle
    have hcx : c ∉ xs := by
      intro hmem
      have := List.nodup_append.mp hnd
      exact this.2.2 hmem (by simp)
    have hsel : selectNext (xs ++ c :: ys) c = (ys ++ xs).head? := selectNext_eq xs ys c hcx
    cases ys with
    | cons b ys2 =>
      have hsel2 : selectNext (xs ++ c :: b :: ys2) c = some b := by
        rw [hsel]
        rfl
      simp only [rrFrom]
      rw [hsel2]
      simp only []
      rw [show ((b :: ys2) ++ xs ++ [c]) = b :: (ys2 ++ xs ++ [c]) from rfl,
        List.take_succ_cons]
      have hre : xs ++ c :: b :: ys2 = (xs ++ [c]) ++ b :: ys2 := by simp
      rw [hre]
      have ihb := ih (xs ++ [c]) ys2 b (by rw [← hre]; exact hnd)
        (by simp only [List.length_append, List.length_cons]; omega)
        (by simp at hle ⊢; omega)
      rw [ihb]
      rw [show ys2 ++ (xs ++ [c]) ++ [b] = (ys2 ++ xs ++ [c]) ++ [b] from by simp]
      rw [take_append_left (ys2 ++ xs ++ [c]) [b] M (by simp at hle ⊢; omega)]
    | nil =>
      cases xs with
      | nil => simp at hge
      | cons x xs2 =>
        have hsel2 : selectNext ((x :: xs2) ++ c :: []) c = some x := by
          rw [hsel]
          rfl
        simp only [rrFrom]
        rw [hsel2]
        simp only []
        rw [show (([] : List String) ++ (x :: xs2) ++ [c]) = x :: (xs2 ++ [c]) from by simp,
          List.take_succ_cons]
        have hre : (x :: xs2) ++ c :: ([] : List String) = [] ++ x :: (xs2 ++ [c]) := by simp
        rw [hre]
        have ihb := ih [] (xs2 ++ [c]) x (by rw [← hre]; exact hnd)
          (by simp only [List.length_append, List.length_cons, List.length_nil]; omega)
          (by simp at hle ⊢; omega)
        rw [ihb]
        rw [show (xs2 ++ [c]) ++ ([] : List String) ++ [x] = (xs2 ++ [c]) ++ [x] from by simp]
        rw [take_append_left (xs2 ++ [c]) [x] M (by simp at hle ⊢; omega)]

/-- Auxiliary: the stream is empty when no speaker can be selected. -/
theorem rrFrom_none (reg : List String) (c : String) (h : selectNext reg c = none) :
    ∀ b, rrFrom reg c b = [] := by
  intro b
  cases b with
  | zero => rfl
  | succ k => simp [rrFrom, h]

/-- Auxiliary: splitting the stream; the continuation starts at the last
emitted speaker. -/
theorem rrFrom_add (reg : List String) :
    ∀ (a b : Nat) (c : String),
      rrFrom reg c (a + b) =
        rrFrom reg c a ++ rrFrom reg (List.getLastD (rrFrom reg c a) c) b := by
  intro a
  induction a with
  | zero =>
    intro b c
    simp [rrFrom, List.getLastD]
  | succ a ih =>
    intro b c
    rw [show a + 1 + b = (a + b) + 1 from by omega]
    cases hsel : selectNext reg c with
    | none =>
      rw [show rrFrom reg c (a + b + 1) = [] from by simp [rrFrom, hsel],
        show rrFrom reg c (a + 1) = [] from by simp [rrFrom, hsel]]
      simp [List.getLastD]
      exact rrFrom_none reg c hsel b
    | some p =>
      rw [show rrFrom reg c (a + b + 1) = p :: rrFrom reg p (a + b) from by
          simp [rrFrom, hsel],
        show rrFrom reg c (a + 1) = p :: rrFrom reg p a from by simp [rrFrom, hsel]]
      rw [ih b p, List.getLastD_cons]
      rfl

/-- Auxiliary: one full cycle of the stream visits the rest of the
registry, then the part before the current speaker, then the current
speaker itself. -/
theorem rrFrom_cycle (xs ys : List String) (c : String)
    (hnd : (xs ++ c :: ys).Nodup) (hge : 1 ≤ xs.length + ys.length) :
    rrFrom (xs ++ c :: ys) c (xs.length + ys.length + 1) = ys ++ xs ++ [c] := by
  rw [rrFrom_take (xs.length + ys.length + 1) xs ys c hnd hge (Nat.le_refl _)]
  apply List.take_of_length_le
  simp only [List.length_append, List.length_cons, List.length_nil]
  omega

/-- Auxiliary: the stream decomposes into a leading full cycle followed by
the stream over the remaining turns. -/
theorem rrFrom_full (xs ys : List String) (c : String) (m : Nat)
    (hnd : (xs ++ c :: ys).Nodup) (hge : 1 ≤ xs.length + ys.length) :
    rrFrom (xs ++ c :: ys) c (xs.length + ys.length + 1 + m) =
      (ys ++ xs ++ [c]) ++ rrFrom (xs ++ c :: ys) c m := by
  rw [rrFrom_add (xs ++ c :: ys) (xs.length + ys.length + 1) m c,
    rrFrom_cycle xs ys c hnd hge, List.getLastD_concat]

/-- Auxiliary: rotating a registry around the current speaker preserves
distinctness. -/
theorem nodup_rotate (xs ys : List String) (c : String)
    (hnd : (xs ++ c :: ys).Nodup) : (c :: (ys ++ xs)).Nodup := by
  rcases List.nodup_append.mp hnd with ⟨hxs, hcys, hdisj⟩
  rcases List.nodup_cons.mp hcys with ⟨hcys2, hys⟩
  rw [List.nodup_cons]
  constructor
  · intro hmem
    rcases List.mem_append.mp hmem with h | h
    · exact hcys2 h
    · exact hdisj h (List.mem_cons_self c ys)
  · rw [List.nodup_append]
    refine ⟨hys, hxs, ?_⟩
    intro a ha hax
    exact hdisj hax (List.mem_cons_of_mem c ha)

/-- Auxiliary: a distinct cycle closed by its starting speaker has
pairwise-distinct neighbours. -/
theorem chain_ne_cycle (c : String) (L : List String) (hnd : (c :: L).Nodup) (hL : L ≠ []) :
    List.Chain' (fun a b => a ≠ b) ((c :: L) ++ [c]) := by
  rw [List.chain'_append]
  refine ⟨List.Pairwise.chain' hnd, List.chain'_singleton c, ?_⟩
  intro x hx y hy
  simp only [List.head?_cons, Option.mem_def, Option.some.injEq] at hy
  subst hy
  have hxL : x ∈ L := by
    cases L with
    | nil => exact absurd rfl hL
    | cons z L2 =>
      rw [List.getLast?_cons_cons] at hx
      exact List.mem_of_getLast?_eq_some hx
  intro hxc
  subst hxc
  exact (List.nodup_cons.mp hnd).1 hxL

/-- Auxiliary: over M turns each registered participant is selected at
least once per completed cycle, hence at least M divided by the registry
size. -/
theorem rrFrom_count (xs ys : List String) (c p : String)
    (hnd : (xs ++ c :: ys).Nodup) (hge : 1 ≤ xs.length + ys.length)
    (hp : p ∈ xs ++ c :: ys) :
    ∀ M : Nat, M / (xs ++ c :: ys).length ≤ (rrFrom (xs ++ c :: ys) c M).count p := by
  have hlen : (xs ++ c :: ys).length = xs.length + ys.length + 1 := by
    simp only [List.length_append, List.length_cons]
    omega
  intro M
  induction M using Nat.strong_induction_on with
  | _ M ihM =>
    by_cases hM : M < (xs ++ c :: ys).length
    · rw [Nat.div_eq_of_lt hM]
      exact Nat.zero_le _
    · have hge2 : (xs ++ c :: ys).length ≤ M := Nat.not_lt.mp hM
      have hsplit : rrFrom (xs ++ c :: ys) c M =
          (ys ++ xs ++ [c]) ++ rrFrom (xs ++ c :: ys) c (M - (xs ++ c :: ys).length) := by
        conv_lhs =>
          rw [show M = xs.length + ys.length + 1 + (M - (xs ++ c :: ys).length) from by omega]
        exact rrFrom_full xs ys c _ hnd hge
      have hdiv : M / (xs ++ c :: ys).length =
          (M - (xs ++ c :: ys).length) / (xs ++ c :: ys).length + 1 := by
        conv_lhs =>
          rw [show M = (M - (xs ++ c :: ys).length) + (xs ++ c :: ys).length from by omega]
        rw [Nat.add_div_right _ (by omega : 0 < (xs ++ c :: ys).length)]
      have hcyc : 1 ≤ (ys ++ xs ++ [c]).count p := by
        apply List.count_pos_iff.mpr
        simp only [List.mem_append, List.mem_cons] at hp ⊢
        tauto
      have hrest := ihM (M - (xs ++ c :: ys).length) (by omega)
      rw [hsplit, List.count_append, hdiv]
      have hsum := Nat.add_le_add hcyc hrest
      linarith

/-- Auxiliary: no speaker in the stream equals its predecessor, the
current speaker included. -/
theorem rrFrom_chain (xs ys : List String) (c : String)
    (hnd : (xs ++ c :: ys).Nodup) (hge : 1 ≤ xs.length + ys.length) :
    ∀ M : Nat, List.Chain' (fun a b => a ≠ b) (c :: rrFrom (xs ++ c :: ys) c M) := by
  have hne : ys ++ xs ≠ [] := by
    intro h
    have := congrArg List.length h
    simp only [List.length_append, List.length_nil] at this
    omega
  have hbase : List.Chain' (fun a b => a ≠ b) ((c :: (ys ++ xs)) ++ [c]) :=
    chain_ne_cycle c (ys ++ xs) (nodup_rotate xs ys c hnd) hne
  intro M
  induction M using Nat.strong_induction_on with
  | _ M ihM =>
    by_cases hM : M ≤ xs.length + ys.length + 1
    · rw [rrFrom_take M xs ys c hnd hge hM]
      have heq : c :: (ys ++ xs ++ [c]).take M = ((c :: (ys ++ xs)) ++ [c]).take (M + 1) := by
        rw [show (c :: (ys ++ xs)) ++ [c] = c :: (ys ++ xs ++ [c]) from by simp,
          List.take_succ_cons]
      rw [heq]
      exact List.Chain'.take hbase (M + 1)
    · have hM2 : xs.length + ys.length + 1 ≤ M := by omega
      have hsplit : rrFrom (xs ++ c :: ys) c M =
          (ys ++ xs ++ [c]) ++ rrFrom (xs ++ c :: ys) c (M - (xs.length + ys.length + 1)) := by
        conv_lhs =>
          rw [show M = xs.length + ys.length + 1 + (M - (xs.length + ys.length + 1)) from by
            omega]
        exact rrFrom_full xs ys c _ hnd hge
      rw [hsplit]
      have hrest := ihM (M - (xs.length + ys.length + 1)) (by omega)
      rw [show c :: ((ys ++ xs ++ [c]) ++
            rrFrom (xs ++ c :: ys) c (M - (xs.length + ys.length + 1))) =
          (c :: (ys ++ xs ++ [c])) ++
            rrFrom (xs ++ c :: ys) c (M - (xs.length + ys.length + 1)) from rfl]
      rw [List.chain'_append]
      refine ⟨?_, List.Chain'.tail hrest, ?_⟩
      · rw [show c :: (ys ++ xs ++ [c]) = (c :: (ys ++ xs)) ++ [c] from by simp]
        exact hbase
      · intro x hx y hy
        have hx2 : x = c := by
          rw [show c :: (ys ++ xs ++ [c]) = (c :: (ys ++ xs)) ++ [c] from by simp,
            List.getLast?_concat] at hx
          exact (Option.some.inj (Option.mem_def.mp hx)).symm
        subst hx2
        exact (List.chain'_cons'.mp hrest).1 y hy

/-- Auxiliary: a live session whose step result is live took the dispatch
branch, with some selected speaker. -/
theorem step_not_terminated (reply : String → List Msg → ContentField)
    (isTerm : ContentField → Bool) (s : Session)
    (h0 : s.terminated = false) (h1 : (step reply isTerm s).terminated = false) :
    ∃ p, selectNext s.registry s.current = some p ∧
      step reply isTerm s = { s with
        current := p,
        transcript := s.transcript ++ [⟨p, reply p s.transcript⟩],
        rounds := s.rounds + 1 } := by
  by_cases hmr : s.maxRounds ≤ s.rounds
  · exfalso
    rw [show step reply isTerm s = { s with terminated := true } from by
      simp [step, h0, hmr]] at h1
    simp at h1
  · cases hterm : (match s.transcript.getLast? with
      | some m => isTerm m.content
      | none => false) with
    | true =>
      exfalso
      rw [show step reply isTerm s = { s with terminated := true } from by
        simp [step, h0, hmr, hterm]] at h1
      simp at h1
    | false =>
      cases hsel : selectNext s.registry s.current with
      | none =>
        exfalso
        rw [show step reply isTerm s = { s with terminated := true } from by
          simp [step, h0, hmr, hterm, hsel]] at h1
        simp at h1
      | some p =>
        refine ⟨p, rfl, ?_⟩
        simp [step, h0, hmr, hterm, hsel]

/-- Auxiliary: a run that is live after at least one turn was live after
the first turn. -/
theorem run_not_terminated_step (reply : String → List Msg → ContentField)
    (isTerm : ContentField → Bool) (s : Session) (M : Nat) (hM : 1 ≤ M)
    (h : (runSteps reply isTerm s M).terminated = false) :
    (step reply isTerm s).terminated = false := by
  obtain ⟨M2, rfl⟩ : ∃ M2, M = M2 + 1 := ⟨M - 1, by omega⟩
  by_contra hc
  rw [Bool.not_eq_false] at hc
  rw [show runSteps reply isTerm s (M2 + 1) =
      runSteps reply isTerm (step reply isTerm s) M2 from rfl,
    runSteps_terminated reply isTerm M2 _ hc, hc] at h
  exact absurd h (by decide)

/-- Auxiliary: as long as the run stays live, its speaker trace is the
round-robin stream. -/
theorem speakersOf_eq_rrFrom (reply : String → List Msg → ContentField)
    (isTerm : ContentField → Bool) :
    ∀ (M : Nat) (s : Session), s.terminated = false →
      (runSteps reply isTerm s M).terminated = false →
      speakersOf reply isTerm s M = rrFrom s.registry s.current M := by
  intro M
  induction M with
  | zero => intro s _ _; rfl
  | succ M ih =>
    intro s h0 hM
    have hstep : (step reply isTerm s).terminated = false :=
      run_not_terminated_step reply isTerm s (M + 1) (by omega) hM
    obtain ⟨p, hsel, hdisp⟩ := step_not_terminated reply isTerm s h0 hstep
    show (step reply isTerm s).current ::
        speakersOf reply isTerm (step reply isTerm s) M =
      rrFrom s.registry s.current (M + 1)
    rw [show rrFrom s.registry s.current (M + 1) = p :: rrFrom s.registry p M from by
      simp [rrFrom, hsel]]
    have hreg : (step reply isTerm s).registry = s.registry := by rw [hdisp]
    have hcur : (step reply isTerm s).current = p := by rw [hdisp]
    rw [hcur]
    have htail := ih (step reply isTerm s) hstep hM
    rw [htail, hreg, hcur]

/-- C7: under round-robin selection with participants A, B, C registered in
that order and initial speaker A, five turns with no termination select
exactly B, C, A, B, C; and in general, over M turns of a live session with
N distinct registered participants and M greater than N, every registered
participant is selected at least M / N times and no speaker (the initial
one included) equals its successor. -/
theorem c7_round_robin :
    (speakersOf (fun _ _ => ContentField.strVal "") (fun _ => false)
        ⟨["A", "B", "C"], [], "A", 0, 10, false⟩ 5 = ["B", "C", "A", "B", "C"])
    ∧ (∀ (reply : String → List Msg → ContentField) (isTerm : ContentField → Bool)
        (s : Session) (M : Nat),
        s.terminated = false →
        s.registry.Nodup →
        s.current ∈ s.registry →
        s.registry.length < M →
        (runSteps reply isTerm s M).terminated = false →
        (∀ p ∈ s.registry,
          M / s.registry.length ≤ (speakersOf reply isTerm s M).count p)
        ∧ List.Chain' (fun a b => a ≠ b)
            (s.current :: speakersOf reply isTerm s M)) := by
  constructor
  · rfl
  · intro reply isTerm s M h0 hnd hmem hMN hterm
    obtain ⟨xs, ys, hdecomp⟩ := List.append_of_mem hmem
    have htrace := speakersOf_eq_rrFrom reply isTerm M s h0 hterm
    have hlenpos : 0 < s.registry.length :=
      List.length_pos.mpr (List.ne_nil_of_mem hmem)
    have hge : 1 ≤ xs.length + ys.length := by
      by_contra hc
      push_neg at hc
      have hxs : xs = [] := List.eq_nil_of_length_eq_zero (by omega)
      have hys : ys = [] := List.eq_nil_of_length_eq_zero (by omega)
      have hstep1 := run_not_terminated_step reply isTerm s M (by omega) hterm
      obtain ⟨p, hsel, _⟩ := step_not_terminated reply isTerm s h0 hstep1
      rw [hdecomp, hxs, hys, selectNext_eq [] [] s.current (by simp)] at hsel
      exact Option.noConfusion hsel
    constructor
    · intro p hp
      rw [htrace, hdecomp]
      exact rrFrom_count xs ys s.current p (by rw [← hdecomp]; exact hnd) hge
        (by rw [← hdecomp]; exact hp) M
    · rw [htrace, hdecomp]
      exact rrFrom_chain xs ys s.current (by rw [← hdecomp]; exact hnd) hge M

/-- Witness for C7 at a concrete input. -/
theorem c7_witness :
    (∀ p ∈ (["A", "B", "C"] : List String),
      5 / (["A", "B", "C"] : List String).length ≤
        (speakersOf (fun _ _ => ContentField.strVal "") (fun _ => false)
          ⟨["A", "B", "C"], [], "A", 0, 10, false⟩ 5).count p)
    ∧ List.Chain' (fun a b => a ≠ b)
        ("A" :: speakersOf (fun _ _ => ContentField.strVal "") (fun _ => false)
          ⟨["A", "B", "C"], [], "A", 0, 10, false⟩ 5) :=
  c7_round_robin.2 (fun _ _ => ContentField.strVal "") (fun _ => false)
    ⟨["A", "B", "C"], [], "A", 0, 10, false⟩ 5 rfl (by decide) (by decide) (by decide)
    (by decide)

end AgDemo
